import Mathlib

/-!
Shallow embedding of the shogun-mistodon social protocol core
(src/src/utils/socialProtocol.ts, src/src/hooks/useFollow.ts,
src/src/hooks/useSocialProtocol.ts).

The underlying GunDB graph store is modelled as a partial map from paths
(lists of string segments; `gun.get(a).get(b)` navigates to path [a, b])
to JS-like values.  A write `handle.put(v)` is a pair (path, value); a
tombstone `handle.put(null)` is recorded as a cleared path.  Stored
values are either strings (souls stored in the content-address table and
timeline shards), flat objects with an optional node-soul metadata slot
(the `_` / `_['#']` of a GunDB node) and atomic fields, or node
references (`handle.put(otherNode)` / `handle.set(otherNode)`).
`handle.set(node)` is modelled as keyed by the target node's soul, and
the soul of a path-navigated node is modelled as its path joined by
slashes (pathSoul).  Calendar-day timeline keys (YYYY-MM-DD strings
produced by toISOString) are modelled as the decimal string of a day
index, with dayOf converting a millisecond timestamp to its day.
-/

namespace Mistodon

/-- Atomic field values of a flat JS object. -/
inductive Atom where
  | astr : String → Atom
  | anum : Nat → Atom
  | anull : Atom
deriving DecidableEq, Repr

/-- A JS-like stored value: a plain string, a flat object carrying the
GunDB node metadata soul (`_['#']`) and atomic fields, or a reference to
another node. -/
inductive JVal where
  | jstr : String → JVal
  | jobj : Option String → List (String × Atom) → JVal
  | jref : List String → JVal
deriving DecidableEq, Repr

abbrev Path := List String

/-- The graph store: a partial map from paths to values. -/
def Store := Path → Option JVal

/-- A put of a (non-null) value at a path. -/
abbrev Write := Path × JVal

/-- Apply one put. -/
def putW (s : Store) (w : Write) : Store :=
  fun q => if q = w.1 then some w.2 else s q

/-- Apply a list of puts, left to right (later writes win). -/
def applyWrites (st : Store) (ws : List Write) : Store :=
  ws.foldl putW st

/-- Apply a set of tombstones (`put(null)`): every listed path is
cleared, everything else is untouched.  Tombstones commute, so a set
suffices. -/
def applyClears (st : Store) (ps : List Path) : Store :=
  fun q => if q ∈ ps then none else st q

/-- Field lookup on a flat object ( `obj.field` ). -/
def fieldOf (fs : List (String × Atom)) (k : String) : Option Atom :=
  (fs.find? (fun kv => kv.1 == k)).map (fun kv => kv.2)

/-- JS truthiness for a string-valued field: present, a string, and
non-empty ( `obj.f && typeof obj.f === "string"`-style guards and
`a || b` fallthrough). -/
def truthyStr : Option Atom → Option String
  | some (Atom.astr s) => if s = "" then none else some s
  | _ => none

/-- JS truthiness for a number-valued field (0 is falsy). -/
def truthyNat : Option Atom → Option Nat
  | some (Atom.anum n) => if n = 0 then none else some n
  | _ => none

/-- `postData.authorPub || postData.author` (socialProtocol.ts:640). -/
def authorOf (fs : List (String × Atom)) : Option String :=
  match truthyStr (fieldOf fs "authorPub") with
  | some a => some a
  | none => truthyStr (fieldOf fs "author")

/-- The soul of a path-navigated node, modelled as the slash-joined
path; used as the key of `handle.set(node)` writes. -/
def pathSoul (p : Path) : String := String.intercalate "/" p

/-- Day index of a millisecond timestamp (models the calendar-day part
of `new Date(ts).toISOString()`). -/
def dayOf (ts : Nat) : Nat := ts / 86400000

/-- Day key string (models the `YYYY-MM-DD` timeline shard key). -/
def dayStr (d : Nat) : String := toString d

/-- A word character of the JS regex `\w` : [A-Za-z0-9_]. -/
def isWordChar (c : Char) : Bool :=
  c.isAlpha || c.isDigit || c = '_'

/-- Left-to-right, non-overlapping scan for `#\w+` matches, as JS
`text.match(/#\w+/g)`.  The accumulator is `some w` when a `#` has been
seen and `w` holds the word characters read since. -/
def scanTags : List Char → Option (List Char) → List String
  | [], cur =>
    match cur with
    | some w => if w.isEmpty then [] else [String.mk ('#' :: w)]
    | none => []
  | c :: rest, cur =>
    match cur with
    | some w =>
      if isWordChar c then scanTags rest (some (w ++ [c]))
      else
        (if w.isEmpty then [] else [String.mk ('#' :: w)])
          ++ scanTags rest (if c = '#' then some [] else none)
    | none =>
      if c = '#' then scanTags rest (some [])
      else scanTags rest none

/-- All `#\w+` matches of a text (empty list models a null match
result; `forEach` over it and the `if (hashtags)` guard agree). -/
def matchHashtags (text : String) : List String :=
  scanTags text.data none

/-- Normalisation `tag.replace(..).toLowerCase()` of a match that always
starts with the `#` marker: drop the marker, lowercase the rest. -/
def cleanTag (t : String) : String :=
  String.mk ((t.data.drop 1).map Char.toLower)

/-- Guard `key.startsWith("_")` used to skip GunDB metadata keys. -/
def startsUnderscore (s : String) : Bool :=
  match s.data with
  | c :: _ => c = '_'
  | [] => false

/-- The distinct-occurrence slugs of a text, in match order. -/
def slugsOf (text : String) : List String :=
  (matchHashtags text).map cleanTag

/-- Result shape `{ success, error? }` returned by the protocol
operations. -/
structure OpResult where
  success : Bool
  error : Option String
deriving DecidableEq, Repr

/-- Tag metadata `{ name: cleanTag, slug: cleanTag }` upserted at
`{app}/hashtags/{tag}` (socialProtocol.ts:256-260). -/
def tagMeta (c : String) : JVal :=
  JVal.jobj none [("name", Atom.astr c), ("slug", Atom.astr c)]

/-- Explicit link entry `{ hash, timestamp }` written into hashtag and
reply indices. -/
def linkEntry (hash : String) (ts : Nat) : JVal :=
  JVal.jobj none [("hash", Atom.astr hash), ("timestamp", Atom.anum ts)]

/-- Writes issued by `_indexHashtags(text, postData, postNode)`
(socialProtocol.ts:248-272).  For every `#\w+` match (occurrences are
not deduplicated): upsert the tag metadata, write the explicit
hash-keyed link entry, and add the two `set` node references
(tag → post and post → tag). -/
def indexHashtagsWrites (app hash : String) (ts : Nat) (text : String) :
    List Write :=
  (matchHashtags text).flatMap fun t =>
    let c := cleanTag t
    [ ([app, "hashtags", c], tagMeta c),
      ([app, "hashtags", c, "posts", hash], linkEntry hash ts),
      ([app, "hashtags", c, "posts", pathSoul [app, "posts", hash]],
        JVal.jref [app, "posts", hash]),
      ([app, "posts", hash, "tags", pathSoul [app, "hashtags", c]],
        JVal.jref [app, "hashtags", c]) ]

/-- Outcome shape `{ success, error?, id?, hash? }` of `publishPost`. -/
structure PubOut where
  success : Bool
  error : Option String
  id : Option String
  hash : Option String
deriving DecidableEq, Repr

/-- The soul `data._ && data._[..]` delivered by the store `on`
callback, when present and truthy. -/
def soulOf : JVal → Option String
  | JVal.jobj (some s) _ => if s = "" then none else some s
  | _ => none

/-- The first `on`-callback delivery carrying a soul; the promise of
`publishPost` resolves at that event and at no other point. -/
def firstSoul (events : List JVal) : Option String :=
  events.findSome? soulOf

/-- Atom of an optional string value (`null` when absent). -/
def atomOfOpt : Option String → Atom
  | some s => Atom.astr s
  | none => Atom.anull

/-- Fan-out writes of `publishPost` after the soul is observed and
hashed (socialProtocol.ts:184-222): content-address table, today's
timeline shard, author index, author↔post links, reply↔parent links
when replying, and the hashtag index. -/
def publishFanout (app u soul hash text : String)
    (replyTo : Option String) (ts : Nat) : List Write :=
  [ (["#posts", hash], JVal.jstr soul),
    ([app, "timeline", dayStr (dayOf ts), hash], JVal.jstr soul),
    (["users", u, "posts", hash],
      JVal.jobj none [("soul", Atom.astr soul), ("hash", Atom.astr hash),
        ("timestamp", Atom.anum ts)]),
    ([app, "posts", hash, "author"], JVal.jref ["users", u]),
    (["users", u, "posts_bidirectional", pathSoul [app, "posts", hash]],
      JVal.jref [app, "posts", hash]) ]
  ++ (match replyTo with
      | some rid =>
        [ ([app, "posts", rid, "replies", hash], linkEntry hash ts),
          ([app, "posts", rid, "replies", pathSoul [app, "posts", hash]],
            JVal.jref [app, "posts", hash]),
          ([app, "posts", hash, "replyTo"], JVal.jref [app, "posts", rid]) ]
      | none => [])
  ++ indexHashtagsWrites app hash ts text

/-- Model of `publishPost(text, mediaFile, replyToId)`
(socialProtocol.ts:134-243).  Guards: authentication, user pub,
availability of the hashing primitive (SEA.work) — all checked before
any write.  `newSoulKey` is the store-generated key of the
`user.get(..).set(postData)` append; `events` is the sequence of values
delivered to the `on` callback registered on that append; `hashFn`
models `SEA.work(soul, null, null, sha256)`.  The first component is
`none` when the returned promise never settles. -/
def publishPost (isAuth : Bool) (userPub : Option String) (seaAvail : Bool)
    (app text : String) (mediaCid replyTo : Option String) (ts : Nat)
    (newSoulKey : String) (events : List JVal) (hashFn : String → String) :
    Option PubOut × List Write :=
  if isAuth = false then
    (some ⟨false, some "Non sei loggato", none, none⟩, [])
  else
    match userPub with
    | none => (some ⟨false, some "User pub not found", none, none⟩, [])
    | some u =>
      if seaAvail = false then
        (some ⟨false,
          some "SEA not available - content-addressed storage requires SEA",
          none, none⟩, [])
      else
        let postData : JVal := JVal.jobj none
          [("text", Atom.astr text), ("media", atomOfOpt mediaCid),
           ("authorPub", Atom.astr u), ("timestamp", Atom.anum ts),
           ("replyTo", atomOfOpt replyTo)]
        let setW : List Write :=
          [(["~" ++ u, "posts", newSoulKey], postData)]
        match firstSoul events with
        | none => (none, setW)
        | some soul =>
          let h := hashFn soul
          (some ⟨true, none, some h, some h⟩,
            setW ++ publishFanout app u soul h text replyTo ts)

/-- Post payload assembled by the timeline reader
(socialProtocol.ts:333-340). -/
structure PostPayload where
  id : String
  text : String
  media : Option String
  authorPub : String
  timestamp : Nat
  replyTo : Option String
deriving DecidableEq, Repr

/-- One `map().on((postSoul, hash) => ..)` delivery of
`viewGlobalTimeline` (socialProtocol.ts:327-347): the delivered value
must be a truthy string and the key truthy and not metadata; the soul
is then resolved against the store with `once`; if an object comes
back, a payload is built with falsy fields defaulted (`|| ..`), and it
is handed to the callback when its text is non-empty.  Returns the list
of callback invocations this delivery produces. -/
def vgtOne (st : Store) (now : Nat) : JVal × String → List PostPayload
  | (JVal.jstr s, key) =>
    if s = "" then []
    else if key = "" then []
    else if startsUnderscore key then []
    else
      match st [s] with
      | some (JVal.jobj _ fs) =>
        let p : PostPayload :=
          { id := key
            text := (truthyStr (fieldOf fs "text")).getD ""
            media := truthyStr (fieldOf fs "media")
            authorPub := (truthyStr (fieldOf fs "authorPub")).getD ""
            timestamp := (truthyNat (fieldOf fs "timestamp")).getD now
            replyTo := truthyStr (fieldOf fs "replyTo") }
        if p.text = "" then [] else [p]
      | _ => []
  | (_, _) => []

/-- All callback invocations of a `viewGlobalTimeline` subscription over
a sequence of `map().on` deliveries.  The subscription itself keeps no
dedup state: every delivery is processed independently. -/
def vgtEmissions (st : Store) (now : Nat)
    (deliveries : List (JVal × String)) : List PostPayload :=
  deliveries.flatMap (vgtOne st now)

/-- Dedup layer of the `useSocialProtocol` hook
(useSocialProtocol.ts:140-162): for every post handed to the hook by
the subscription callback, skip it when its id is falsy or already in
the `processedPostsRef` set; otherwise record the id and process the
post.  Returns the posts actually processed, given the already-seen id
set. -/
def hookDedup : List PostPayload → List String → List PostPayload
  | [], _ => []
  | p :: rest, seen =>
    if p.id = "" then hookDedup rest seen
    else if p.id ∈ seen then hookDedup rest seen
    else p :: hookDedup rest (p.id :: seen)

/-- Writes of a successful `follow(userPubToFollow)`
(useFollow.ts:157-166): paired `{timestamp}` upserts at
`users/A/following/B` and `users/B/followers/A`. -/
def followWrites (cur target : String) (now : Nat) : List Write :=
  [ (["users", cur, "following", target],
      JVal.jobj none [("timestamp", Atom.anum now)]),
    (["users", target, "followers", cur],
      JVal.jobj none [("timestamp", Atom.anum now)]) ]

/-- Model of `follow` (useFollow.ts:135-195): guards, self-follow
rejection, then the paired writes. -/
def followOp (loggedIn : Bool) (cur : Option String) (target : String)
    (now : Nat) : OpResult × List Write :=
  if loggedIn = false then (⟨false, some "Not authenticated"⟩, [])
  else
    match cur with
    | none => (⟨false, some "User not authenticated"⟩, [])
    | some c =>
      if c = target then (⟨false, some "Cannot follow yourself"⟩, [])
      else (⟨true, none⟩, followWrites c target now)

/-- Tombstoned paths of a successful `unfollow(userPubToUnfollow)`
(useFollow.ts:216-225): paired `put(null)` at both sides of the edge. -/
def unfollowClears (cur target : String) : List Path :=
  [ ["users", cur, "following", target],
    ["users", target, "followers", cur] ]

/-- Model of `unfollow` (useFollow.ts:198-247): guards, then the paired
tombstones (no self-unfollow check exists in the source). -/
def unfollowOp (loggedIn : Bool) (cur : Option String) (target : String) :
    OpResult × List Path :=
  if loggedIn = false then (⟨false, some "Not authenticated"⟩, [])
  else
    match cur with
    | none => (⟨false, some "User not authenticated"⟩, [])
    | some c => (⟨true, none⟩, unfollowClears c target)

/-- Membership test applied by the follow-list loaders
(useFollow.ts:40-68): a key is a member when its entry is an object
that still has fields once the store metadata is stripped; a tombstoned
or absent entry is not. -/
def memberEntry : Option JVal → Bool
  | some (JVal.jobj _ fs) => !fs.isEmpty
  | _ => false

/-- The in-memory `profilesCache` record. -/
abbrev Cache := List (String × JVal)

/-- Placeholder profile stored when a profile read returns nothing. -/
def anonProfile : JVal := JVal.jobj none [("displayName", Atom.astr "Anonimo")]

/-- Truthiness lookup `this.profilesCache[pub]`. -/
def cacheLookup (c : Cache) (pub : String) : Option JVal :=
  ((c.find? (fun kv => kv.1 == pub)).map (fun kv => kv.2))

/-- Model of `getUserProfile(userPub, callback)`
(socialProtocol.ts:469-478).  `storeProfile` is what the store `once`
read would deliver.  Returns the profile passed to the callback, the
cache afterwards, and whether the store was read. -/
def getUserProfile (c : Cache) (storeProfile : Option JVal) (pub : String) :
    JVal × Cache × Bool :=
  match cacheLookup c pub with
  | some p => (p, c, false)
  | none =>
    let p := storeProfile.getD anonProfile
    (p, (pub, p) :: c, true)

/-- Profile-cache path of `getPostWithAuthor(postData, callback)`
(socialProtocol.ts:296-311): identical lookup/fill logic keyed by the
post's author pub. -/
def getPostWithAuthorCache (c : Cache) (storeProfile : Option JVal)
    (authorPub : String) : JVal × Cache × Bool :=
  match cacheLookup c authorPub with
  | some p => (p, c, false)
  | none =>
    let p := storeProfile.getD anonProfile
    (p, (authorPub, p) :: c, true)

/-- Model of `clearProfilesCache()` (socialProtocol.ts:462-464). -/
def clearProfilesCache (_ : Cache) : Cache := []

/-- Resolution method 1 of `deletePost` (socialProtocol.ts:546-550):
read the global content-address table entry; keep it only when it is a
truthy string. -/
def method1 (st : Store) (postId : String) : Option String :=
  match st ["#posts", postId] with
  | some (JVal.jstr s) => if s = "" then none else some s
  | _ => none

/-- Resolution method 2 (socialProtocol.ts:553-571): scan the timeline
shards of today and the previous six days, first truthy string wins. -/
def method2 (st : Store) (app postId : String) (today : Nat) :
    Option String :=
  (List.range 7).findSome? fun i =>
    match st [app, "timeline", dayStr (today - i), postId] with
    | some (JVal.jstr s) => if s = "" then none else some s
    | _ => none

/-- Resolution method 3 (socialProtocol.ts:574-592): read the caller's
own author index entry `users/{userPub}/posts/{postId}` and use its
`soul` field when the entry is an object carrying one.  (The source
also has a `typeof userPostData === "string"` arm, but it is nested
inside the object check and hence unreachable.) -/
def method3 (st : Store) (userPub postId : String) : Option String :=
  match st ["users", userPub, "posts", postId] with
  | some (JVal.jobj _ fs) => truthyStr (fieldOf fs "soul")
  | _ => none

/-- Resolution method 4, last resort (socialProtocol.ts:595-614): read
`{app}/posts/{postId}` directly and extract the node-metadata soul
`data._[..]` when present. -/
def method4 (st : Store) (app postId : String) : Option String :=
  match st [app, "posts", postId] with
  | some (JVal.jobj (some s) _) => if s = "" then none else some s
  | _ => none

/-- The full soul-resolution cascade of `deletePost`: each later method
runs only when every earlier one missed. -/
def resolveSoul (st : Store) (app userPub postId : String) (today : Nat) :
    Option String :=
  match method1 st postId with
  | some s => some s
  | none =>
    match method2 st app postId today with
    | some s => some s
    | none =>
      match method3 st userPub postId with
      | some s => some s
      | none => method4 st app postId

/-- Read of the post content node at its soul
(socialProtocol.ts:624-633): deliver the fields when the node is an
object, stripping the metadata. -/
def postDataOf (st : Store) (soul : String) :
    Option (List (String × Atom)) :=
  match st [soul] with
  | some (JVal.jobj _ fs) => some fs
  | _ => none

/-- Timeline tombstones over the seven-day lookback window anchored at
day `d` (socialProtocol.ts:673-681 and 769-777). -/
def timelineClear (app pid : String) (d : Nat) : List Path :=
  (List.range 7).map fun i => [app, "timeline", dayStr (d - i), pid]

/-- Best-effort removal from the author's signed graph
(socialProtocol.ts:662-670): for each delivered entry of
`user.get(..)` that is an object matching the post by soul, hash or
key, tombstone that key.  The signed user space is addressed by the
tilde-prefixed pub. -/
def signedClear (u postSoul pid : String)
    (entries : List (String × JVal)) : List Path :=
  entries.flatMap fun kv =>
    match kv.2 with
    | JVal.jobj _ fs =>
      if fieldOf fs "soul" = some (Atom.astr postSoul)
          ∨ fieldOf fs "hash" = some (Atom.astr pid)
          ∨ kv.1 = pid
      then [["~" ++ u, "posts", kv.1]] else []
    | _ => []

/-- Hashtag-index tombstones (socialProtocol.ts:684-697): re-scan the
resolved text and clear, per occurrence, the hash-keyed tag entry and
the `tags/{slug}` back-link on the post node. -/
def hashtagClear (app pid : String) (text : String) : List Path :=
  if text = "" then []
  else
    (matchHashtags text).flatMap fun t =>
      let c := cleanTag t
      [ [app, "hashtags", c, "posts", pid],
        [app, "posts", pid, "tags", c] ]

/-- Reply↔parent unlink block, run when the deleted post is itself a
reply (socialProtocol.ts:706-736): clear the hash-keyed entry in the
parent's replies, sweep the delivered parent replies for entries
matching by key, hash or soul, and clear the post's own `replyTo`. -/
def parentClear (app pid postSoul parent : String)
    (entries : List (String × JVal)) : List Path :=
  [[app, "posts", parent, "replies", pid]]
  ++ (entries.flatMap fun kv =>
      if kv.1 = pid then [[app, "posts", parent, "replies", kv.1]]
      else
        match kv.2 with
        | JVal.jobj _ fs =>
          if fieldOf fs "hash" = some (Atom.astr pid)
              ∨ fieldOf fs "soul" = some (Atom.astr postSoul)
          then [[app, "posts", parent, "replies", kv.1]] else []
        | _ => [])
  ++ [[app, "posts", pid, "replyTo"]]

/-- Reply-hash extraction in the cascade (socialProtocol.ts:747-753):
an object entry with a truthy `hash` field wins, otherwise a key longer
than 20 characters is taken to be the hash itself. -/
def replyHashOf (k : String) (v : JVal) : Option String :=
  match v with
  | JVal.jobj _ fs =>
    match truthyStr (fieldOf fs "hash") with
    | some h => some h
    | none => if k.length > 20 then some k else none
  | _ => if k.length > 20 then some k else none

/-- The `processedReplies` dedup of the cascade loop
(socialProtocol.ts:741-744): keep the first delivery of each truthy,
non-metadata key. -/
def dedupKeys : List (String × JVal) → List String → List (String × JVal)
  | [], _ => []
  | kv :: rest, seen =>
    if kv.1 ≠ "" ∧ startsUnderscore kv.1 = false ∧ kv.1 ∉ seen
    then kv :: dedupKeys rest (kv.1 :: seen)
    else dedupKeys rest seen

/-- Index tombstones derived from resolving one reply
(socialProtocol.ts:755-787): look the reply hash up in the
content-address table, read the reply node, and when an author is found
clear the reply's author-index entry, its timeline entries over the
lookback window, and its `replyTo` back-link. -/
def cascadeResolve (st : Store) (app : String) (k : String) (v : JVal) :
    List Path :=
  match replyHashOf k v with
  | none => []
  | some h =>
    match st ["#posts", h] with
    | some (JVal.jstr rsoul) =>
      if rsoul = "" then []
      else
        match st [rsoul] with
        | some (JVal.jobj _ rfs) =>
          match authorOf rfs with
          | none => []
          | some a =>
            [["users", a, "posts", h]]
            ++ (match truthyNat (fieldOf rfs "timestamp") with
                | some rt => timelineClear app h (dayOf rt)
                | none => [])
            ++ [[app, "posts", h, "replyTo"]]
        | _ => []
    | _ => []

/-- All tombstones produced for one delivered reply entry: the resolved
index removals plus the unconditional removal of the entry from the
deleted post's replies (socialProtocol.ts:789-790). -/
def cascadeOne (st : Store) (app pid : String) (kv : String × JVal) :
    List Path :=
  cascadeResolve st app kv.1 kv.2 ++ [[app, "posts", pid, "replies", kv.1]]

/-- The reply cascade over the deduplicated delivered entries. -/
def cascadeClear (st : Store) (app pid : String)
    (entries : List (String × JVal)) : List Path :=
  (dedupKeys entries []).flatMap (cascadeOne st app pid)

/-- Every tombstone issued by a successful `deletePost`
(socialProtocol.ts:650-792), in source order: author index entry,
signed-graph sweep, timeline lookback window, hashtag back-links,
author↔post links, reply↔parent links when the post is a reply, and
the reply cascade. -/
def deleteClears (st : Store) (app u pid soul : String)
    (fs : List (String × Atom))
    (signedE parentE replyE : List (String × JVal)) : List Path :=
  [["users", u, "posts", pid]]
  ++ signedClear u soul pid signedE
  ++ (match truthyNat (fieldOf fs "timestamp") with
      | some ts => timelineClear app pid (dayOf ts)
      | none => [])
  ++ hashtagClear app pid ((truthyStr (fieldOf fs "text")).getD "")
  ++ [[app, "posts", pid, "author"], ["users", u, "posts_bidirectional", pid]]
  ++ (match truthyStr (fieldOf fs "replyTo") with
      | some parent => parentClear app pid soul parent parentE
      | none => [])
  ++ cascadeClear st app pid replyE

/-- Model of `deletePost(postId)` (socialProtocol.ts:529-806).
`today` is the current day for the timeline resolution scan; `signedE`,
`parentE` and `replyE` are the entries the store delivers to the three
live iterations (signed-graph sweep, parent-replies sweep, reply
cascade).  Returns the result and the set of tombstoned paths; no
tombstone is issued on any failure path. -/
def deletePost (st : Store) (app : String) (isAuth : Bool)
    (userPub : Option String) (postId : String) (today : Nat)
    (signedE parentE replyE : List (String × JVal)) :
    OpResult × List Path :=
  if isAuth = false then (⟨false, some "Non sei loggato"⟩, [])
  else
    match userPub with
    | none => (⟨false, some "Chiave pubblica utente non trovata"⟩, [])
    | some u =>
      match resolveSoul st app u postId today with
      | none =>
        (⟨false, some "Post not found. Please try again or refresh the page."⟩,
          [])
      | some soul =>
        match postDataOf st soul with
        | none => (⟨false, some "Post data not found"⟩, [])
        | some fs =>
          if authorOf fs ≠ some u then
            (⟨false, some "You can only delete your own posts"⟩, [])
          else
            (⟨true, none⟩,
              deleteClears st app u postId soul fs signedE parentE replyE)

/-- Concrete store holding one post (hash `p`, soul `s`, author `u`,
text with one hashtag) and one reply to it (hash `R`, soul `rs`,
author `v`); used to exercise the deletion cascade on explicit
inputs. -/
def cascadeStore : Store := fun p =>
  if p = ["#posts", "p"] then some (JVal.jstr "s")
  else if p = ["s"] then some (JVal.jobj none
    [("authorPub", Atom.astr "u"), ("text", Atom.astr "#t"),
     ("timestamp", Atom.anum 1)])
  else if p = ["#posts", "R"] then some (JVal.jstr "rs")
  else if p = ["rs"] then some (JVal.jobj none
    [("authorPub", Atom.astr "v"), ("timestamp", Atom.anum 2)])
  else none

/-- The post fields stored at soul `s` in cascadeStore. -/
def cascadeFields : List (String × Atom) :=
  [("authorPub", Atom.astr "u"), ("text", Atom.astr "#t"),
   ("timestamp", Atom.anum 1)]

/-- The reply entry the store delivers to the cascade loop in the
cascade example. -/
def cascadeReply : String × JVal :=
  ("r", JVal.jobj none [("hash", Atom.astr "R"), ("timestamp", Atom.anum 2)])

theorem applyClears_of_mem (st : Store) (ps : List Path) (q : Path)
    (h : q ∈ ps) : applyClears st ps q = none := by
  simp [applyClears, h]

theorem applyClears_of_not_mem (st : Store) (ps : List Path) (q : Path)
    (h : q ∉ ps) : applyClears st ps q = st q := by
  simp [applyClears, h]

theorem applyWrites_of_not_mem (ws : List Write) (st : Store) (q : Path)
    (h : ∀ w ∈ ws, w.1 ≠ q) : applyWrites st ws q = st q := by
  induction ws generalizing st with
  | nil => rfl
  | cons w ws ih =>
    have h1 : w.1 ≠ q := h w (List.mem_cons_self w ws)
    have h2 : ∀ w2 ∈ ws, w2.1 ≠ q :=
      fun w2 hw2 => h w2 (List.mem_cons_of_mem w hw2)
    show applyWrites (putW st w) ws q = st q
    rw [ih (putW st w) h2]
    show (if q = w.1 then some w.2 else st q) = st q
    exact if_neg (fun hq => h1 hq.symm)

theorem applyWrites_last (ws : List Write) (st : Store) (q : Path) (v : JVal)
    (hex : ∃ w ∈ ws, w.1 = q) (hall : ∀ w ∈ ws, w.1 = q → w.2 = v) :
    applyWrites st ws q = some v := by
  induction ws generalizing st with
  | nil => rcases hex with ⟨w, hw, _⟩; cases hw
  | cons w ws ih =>
    show applyWrites (putW st w) ws q = some v
    by_cases hc : ∃ w2 ∈ ws, w2.1 = q
    · exact ih (putW st w) hc
        (fun w2 h2 hq => hall w2 (List.mem_cons_of_mem w h2) hq)
    · push_neg at hc
      rw [applyWrites_of_not_mem ws (putW st w) q hc]
      rcases hex with ⟨w3, hw3, h3⟩
      rcases List.mem_cons.mp hw3 with h4 | h4
      · subst h4
        have hv : w3.2 = v := hall w3 (List.mem_cons_self w3 ws) h3
        simp [putW, h3, hv]
      · exact absurd h3 (hc w3 h4)

/-- C5: if the hashing primitive (SEA.work) is unavailable, publishPost
fails with the hashing-unavailable error and issues no write at all: no
content node is appended and no index is touched. -/
theorem publishPost_sea_unavailable (u app text : String)
    (mediaCid replyTo : Option String) (ts : Nat) (newSoulKey : String)
    (events : List JVal) (hashFn : String → String) :
    publishPost true (some u) false app text mediaCid replyTo ts
        newSoulKey events hashFn
      = (some ⟨false,
          some "SEA not available - content-addressed storage requires SEA",
          none, none⟩, []) := by
  rfl

/-- C9: with an authenticated caller and hashing available, the promise
returned by publishPost settles if and only if some store `on` delivery
carries a node soul; when no delivery ever does, no result is returned
to the caller. -/
theorem publishPost_settles_iff_soul (u app text : String)
    (mediaCid replyTo : Option String) (ts : Nat) (newSoulKey : String)
    (events : List JVal) (hashFn : String → String) :
    (publishPost true (some u) true app text mediaCid replyTo ts
        newSoulKey events hashFn).1 = none
      ↔ ∀ e ∈ events, soulOf e = none := by
  show (match firstSoul events with
    | none => ((none : Option PubOut),
        [(["~" ++ u, "posts", newSoulKey], JVal.jobj none
          [("text", Atom.astr text), ("media", atomOfOpt mediaCid),
           ("authorPub", Atom.astr u), ("timestamp", Atom.anum ts),
           ("replyTo", atomOfOpt replyTo)])])
    | some soul => (some ⟨true, none, some (hashFn soul), some (hashFn soul)⟩,
        _)).1 = none ↔ _
  rcases h : firstSoul events with _ | s
  · simpa using List.findSome?_eq_none_iff.mp h
  · simp only [h]
    constructor
    · intro hx; cases hx
    · intro hall
      rcases List.findSome?_eq_some_iff.mp h with ⟨l1, e, l2, hl, he, _⟩
      have hmem : e ∈ events := by
        rw [hl]; exact List.mem_append_right l1 (List.mem_cons_self e l2)
      rw [hall e hmem] at he
      cases he

/-- C9 witness: a run whose store never delivers a soul never settles. -/
theorem publishPost_settles_iff_soul_witness :
    (publishPost true (some "u") true "app" "hello" none none 0
        "k" [] (fun s => s)).1 = none :=
  (publishPost_settles_iff_soul "u" "app" "hello" none none 0 "k" []
    (fun s => s)).mpr (by simp)

/-- C10: a profile read that returns nothing caches the placeholder
profile, and every later lookup for that pubkey (through getUserProfile
or the getPostWithAuthor cache path) returns the cached value without a
store read, until clearProfilesCache empties the cache. -/
theorem profile_cache_placeholder (c : Cache) (pub : String)
    (hmiss : cacheLookup c pub = none) :
    getUserProfile c none pub = (anonProfile, (pub, anonProfile) :: c, true)
    ∧ getPostWithAuthorCache c none pub
        = (anonProfile, (pub, anonProfile) :: c, true)
    ∧ (∀ sp, getUserProfile ((pub, anonProfile) :: c) sp pub
        = (anonProfile, (pub, anonProfile) :: c, false))
    ∧ (∀ sp, getPostWithAuthorCache ((pub, anonProfile) :: c) sp pub
        = (anonProfile, (pub, anonProfile) :: c, false))
    ∧ cacheLookup (clearProfilesCache ((pub, anonProfile) :: c)) pub
        = none := by
  have hcons : cacheLookup ((pub, anonProfile) :: c) pub = some anonProfile := by
    simp [cacheLookup, List.find?]
  refine ⟨?_, ?_, fun sp => ?_, fun sp => ?_, ?_⟩
  · unfold getUserProfile; rw [hmiss]; rfl
  · unfold getPostWithAuthorCache; rw [hmiss]; rfl
  · unfold getUserProfile; rw [hcons]
  · unfold getPostWithAuthorCache; rw [hcons]
  · rfl

/-- C10 witness at the empty cache. -/
theorem profile_cache_placeholder_witness :
    getUserProfile [] none "alice"
      = (anonProfile, [("alice", anonProfile)], true)
    ∧ getUserProfile [("alice", anonProfile)] (some (JVal.jstr "x")) "alice"
      = (anonProfile, [("alice", anonProfile)], false) := by
  have h := profile_cache_placeholder [] "alice" (by rfl)
  exact ⟨h.1, h.2.2.1 (some (JVal.jstr "x"))⟩

/-- C8: for an authenticated caller A and a target B with A ≠ B, follow
succeeds and writes both sides of the edge, after which B is in A's
following set and A is in B's followers set; a subsequent unfollow
succeeds, tombstones both sides, after which neither membership
holds. -/
theorem follow_unfollow_symmetry (st : Store) (a b : String) (now : Nat)
    (hab : a ≠ b) :
    (followOp true (some a) b now).1 = ⟨true, none⟩
    ∧ memberEntry (applyWrites st (followOp true (some a) b now).2
        ["users", a, "following", b]) = true
    ∧ memberEntry (applyWrites st (followOp true (some a) b now).2
        ["users", b, "followers", a]) = true
    ∧ (unfollowOp true (some a) b).1 = ⟨true, none⟩
    ∧ memberEntry (applyClears
        (applyWrites st (followOp true (some a) b now).2)
        (unfollowOp true (some a) b).2 ["users", a, "following", b]) = false
    ∧ memberEntry (applyClears
        (applyWrites st (followOp true (some a) b now).2)
        (unfollowOp true (some a) b).2 ["users", b, "followers", a]) = false := by
  have hpaths : (["users", a, "following", b] : Path)
      ≠ ["users", b, "followers", a] := by
    intro h
    rw [List.cons.injEq, List.cons.injEq, List.cons.injEq] at h
    exact absurd h.2.2.1 (by decide)
  have hop : followOp true (some a) b now = (⟨true, none⟩, followWrites a b now) := by
    simp [followOp, hab]
  have huop : unfollowOp true (some a) b = (⟨true, none⟩, unfollowClears a b) := by
    simp [unfollowOp]
  have hw1 : applyWrites st (followWrites a b now) ["users", a, "following", b]
      = some (JVal.jobj none [("timestamp", Atom.anum now)]) := by
    show putW (putW st _) _ ["users", a, "following", b] = _
    rw [putW, if_neg hpaths]
    rw [putW, if_pos rfl]
  have hw2 : applyWrites st (followWrites a b now) ["users", b, "followers", a]
      = some (JVal.jobj none [("timestamp", Atom.anum now)]) := by
    show putW (putW st _) _ ["users", b, "followers", a] = _
    rw [putW, if_pos rfl]
  refine ⟨by rw [hop], ?_, ?_, by rw [huop], ?_, ?_⟩
  · rw [hop]; rw [hw1]; rfl
  · rw [hop]; rw [hw2]; rfl
  · rw [hop, huop]
    rw [applyClears_of_mem _ _ _ (by simp [unfollowClears])]
    rfl
  · rw [hop, huop]
    rw [applyClears_of_mem _ _ _ (by simp [unfollowClears])]
    rfl

/-- C8 witness at concrete users. -/
theorem follow_unfollow_symmetry_witness :
    memberEntry (applyWrites (fun _ => none)
        (followOp true (some "alice") "bob" 5).2
        ["users", "alice", "following", "bob"]) = true
    ∧ memberEntry (applyClears
        (applyWrites (fun _ => none) (followOp true (some "alice") "bob" 5).2)
        (unfollowOp true (some "alice") "bob").2
        ["users", "bob", "followers", "alice"]) = false := by
  have h := follow_unfollow_symmetry (fun _ => none) "alice" "bob" 5 (by decide)
  exact ⟨h.2.1, h.2.2.2.2.2⟩

/-- C7 counterexample: the hashtag indexer does not deduplicate
occurrences before writing.  For the text with the same
case-insensitive tag twice, the tag-metadata upsert at
`hashtags/tag` is issued twice, not exactly once. -/
theorem indexHashtags_no_dedup_counterexample :
    ((indexHashtagsWrites "app" "h1" 3 "#Tag #tag").filter
        (fun w => w.1 == ["app", "hashtags", "tag"])).length = 2
    ∧ ¬ ((indexHashtagsWrites "app" "h1" 3 "#Tag #tag").filter
        (fun w => w.1 == ["app", "hashtags", "tag"])).length = 1 := by
  exact ⟨by decide, by decide⟩

/-- C7 amended: occurrences are normalised to a lowercase slug but not
deduplicated before writing — each occurrence issues its own upserts —
yet all writes for the same slug carry identical values, so after the
fan-out the store holds exactly one metadata entry and one hash-keyed
link entry per distinct case-insensitive tag. -/
theorem indexHashtags_idempotent_upserts (st : Store) (app hash : String)
    (ts : Nat) (text c : String) (hc : c ∈ slugsOf text)
    (hcol : pathSoul [app, "posts", hash] ≠ hash) :
    applyWrites st (indexHashtagsWrites app hash ts text) [app, "hashtags", c]
      = some (tagMeta c)
    ∧ applyWrites st (indexHashtagsWrites app hash ts text)
        [app, "hashtags", c, "posts", hash] = some (linkEntry hash ts) := by
  simp only [slugsOf, List.mem_map] at hc
  obtain ⟨t, ht, rfl⟩ := hc
  constructor
  · apply applyWrites_last
    · refine ⟨([app, "hashtags", cleanTag t], tagMeta (cleanTag t)), ?_, rfl⟩
      exact List.mem_flatMap.mpr ⟨t, ht, by simp⟩
    · intro w hw hpath
      obtain ⟨t2, ht2, hw2⟩ := List.mem_flatMap.mp hw
      simp only [List.mem_cons, List.not_mem_nil, or_false] at hw2
      rcases hw2 with rfl | rfl | rfl | rfl
      · simp only [List.cons.injEq, and_true] at hpath
        rw [hpath.2.2]
      · simp at hpath
      · simp at hpath
      · simp only [List.cons.injEq] at hpath
        exact absurd hpath.2.1 (by decide)
  · apply applyWrites_last
    · refine ⟨([app, "hashtags", cleanTag t, "posts", hash],
        linkEntry hash ts), ?_, rfl⟩
      exact List.mem_flatMap.mpr ⟨t, ht, by simp⟩
    · intro w hw hpath
      obtain ⟨t2, ht2, hw2⟩ := List.mem_flatMap.mp hw
      simp only [List.mem_cons, List.not_mem_nil, or_false] at hw2
      rcases hw2 with rfl | rfl | rfl | rfl
      · simp at hpath
      · rfl
      · simp only [List.cons.injEq, and_true] at hpath
        exact absurd hpath.2.2.2.2 hcol
      · simp only [List.cons.injEq] at hpath
        exact absurd hpath.2.1 (by decide)

/-- C7 amended witness: after the duplicated fan-out the store holds a
single entry for the slug. -/
theorem indexHashtags_idempotent_upserts_witness :
    applyWrites (fun _ => none) (indexHashtagsWrites "app" "h1" 3 "#Tag #tag")
      ["app", "hashtags", "tag"] = some (tagMeta "tag")
    ∧ applyWrites (fun _ => none) (indexHashtagsWrites "app" "h1" 3 "#Tag #tag")
      ["app", "hashtags", "tag", "posts", "h1"] = some (linkEntry "h1" 3) :=
  indexHashtags_idempotent_upserts (fun _ => none) "app" "h1" 3 "#Tag #tag"
    "tag" (by decide) (by decide)

/-- C2 counterexample: a `viewGlobalTimeline` subscription keeps no
dedup set of its own.  When the store `map().on` delivers the same
reference three times, the subscription invokes its callback three
times, not exactly once. -/
theorem vgt_no_dedup_counterexample :
    (vgtEmissions
      (fun p => if p = ["s2"] then some (JVal.jobj none
        [("text", Atom.astr "hi"), ("authorPub", Atom.astr "alice"),
         ("timestamp", Atom.anum 5)]) else none) 99
      [(JVal.jstr "s2", "h2"), (JVal.jstr "s2", "h2"),
       (JVal.jstr "s2", "h2")]).length = 3
    ∧ ¬ (vgtEmissions
      (fun p => if p = ["s2"] then some (JVal.jobj none
        [("text", Atom.astr "hi"), ("authorPub", Atom.astr "alice"),
         ("timestamp", Atom.anum 5)]) else none) 99
      [(JVal.jstr "s2", "h2"), (JVal.jstr "s2", "h2"),
       (JVal.jstr "s2", "h2")]).length = 1 :=
  ⟨by decide, by decide⟩

theorem hookDedup_spec (es : List PostPayload) (seen : List String) :
    ((hookDedup es seen).map (fun p => p.id)).Nodup
    ∧ ∀ i, i ∈ (hookDedup es seen).map (fun p => p.id)
        ↔ (i ≠ "" ∧ i ∉ seen ∧ i ∈ es.map (fun p => p.id)) := by
  induction es generalizing seen with
  | nil => simp [hookDedup]
  | cons p rest ih =>
    rcases eq_or_ne p.id "" with h1 | h1
    · rw [show hookDedup (p :: rest) seen = hookDedup rest seen by
        simp [hookDedup, h1]]
      refine ⟨(ih seen).1, fun i => ?_⟩
      rw [(ih seen).2 i]
      constructor
      · rintro ⟨hi, hs, hm⟩
        exact ⟨hi, hs, by simp [hm]⟩
      · rintro ⟨hi, hs, hm⟩
        refine ⟨hi, hs, ?_⟩
        simp only [List.map_cons, List.mem_cons] at hm
        rcases hm with rfl | hm
        · exact absurd h1 hi
        · exact hm
    · by_cases h2 : p.id ∈ seen
      · rw [show hookDedup (p :: rest) seen = hookDedup rest seen by
          simp [hookDedup, h1, h2]]
        refine ⟨(ih seen).1, fun i => ?_⟩
        rw [(ih seen).2 i]
        constructor
        · rintro ⟨hi, hs, hm⟩
          exact ⟨hi, hs, by simp [hm]⟩
        · rintro ⟨hi, hs, hm⟩
          refine ⟨hi, hs, ?_⟩
          simp only [List.map_cons, List.mem_cons] at hm
          rcases hm with rfl | hm
          · exact absurd h2 hs
          · exact hm
      · rw [show hookDedup (p :: rest) seen
            = p :: hookDedup rest (p.id :: seen) by
          simp [hookDedup, h1, h2]]
        have ihc := ih (p.id :: seen)
        constructor
        · refine List.nodup_cons.mpr ⟨fun hmem => ?_, ihc.1⟩
          have := (ihc.2 p.id).mp hmem
          exact this.2.1 (List.mem_cons_self p.id seen)
        · intro i
          simp only [List.map_cons, List.mem_cons]
          rw [(ihc.2 i)]
          constructor
          · rintro (rfl | ⟨hi, hs, hm⟩)
            · exact ⟨h1, h2, Or.inl rfl⟩
            · exact ⟨hi, fun hx => hs (List.mem_cons_of_mem _ hx), Or.inr hm⟩
          · rintro ⟨hi, hs, rfl | hm⟩
            · exact Or.inl rfl
            · by_cases hip : i = p.id
              · exact Or.inl hip
              · exact Or.inr ⟨hi, by
                  simp only [List.mem_cons]
                  rintro (h | h)
                  · exact hip h
                  · exact hs h, hm⟩

/-- C2 amended: `SocialNetwork.viewGlobalTimeline` itself performs no
deduplication and invokes its callback once per delivery; the
already-delivered id set lives in the `useSocialProtocol` hook wrapper
(processedPostsRef, cleared per subscription), which processes each
distinct non-empty resolved post id exactly once — in particular a
reference delivered three times is processed once at that layer. -/
theorem hook_processes_each_post_once (st : Store) (now : Nat)
    (ds : List (JVal × String)) :
    ((hookDedup (vgtEmissions st now ds) []).map (fun p => p.id)).Nodup
    ∧ ∀ i, i ∈ (hookDedup (vgtEmissions st now ds) []).map (fun p => p.id)
        ↔ (i ≠ "" ∧ i ∈ (vgtEmissions st now ds).map (fun p => p.id)) := by
  have h := hookDedup_spec (vgtEmissions st now ds) []
  refine ⟨h.1, fun i => ?_⟩
  rw [h.2 i]
  simp

/-- C6 counterexample: a resolved node with non-empty text but no
author field is still emitted, carrying the empty author — the reader
guards only on text. -/
theorem vgt_emits_without_author_counterexample :
    vgtEmissions
      (fun p => if p = ["s6"] then some (JVal.jobj none
        [("text", Atom.astr "hello"), ("timestamp", Atom.anum 7)]) else none)
      50 [(JVal.jstr "s6", "h6")]
    = [{ id := "h6", text := "hello", media := none, authorPub := "",
         timestamp := 7, replyTo := none }] := by
  decide

/-- C6 amended: a timeline subscription emits a resolved post only if
its text is non-empty; the author field is not checked and is defaulted
to the empty string when missing, so a partially-replicated node
missing only the author is still emitted. -/
theorem vgt_emits_only_nonempty_text (st : Store) (now : Nat)
    (ds : List (JVal × String)) :
    ∀ p ∈ vgtEmissions st now ds, p.text ≠ "" := by
  intro p hp
  obtain ⟨d, _, hmem⟩ := List.mem_flatMap.mp hp
  obtain ⟨v, key⟩ := d
  cases v with
  | jstr s =>
    simp only [vgtOne] at hmem
    split at hmem
    · cases hmem
    · split at hmem
      · cases hmem
      · split at hmem
        · cases hmem
        · split at hmem
          · split at hmem
            · cases hmem
            · rename_i htext
              rcases List.mem_singleton.mp hmem with rfl
              exact htext
          · cases hmem
  | jobj os fs => cases hmem
  | jref r => cases hmem

/-- C6 amended witness. -/
theorem vgt_emits_only_nonempty_text_witness :
    ({ id := "h6", text := "hello", media := none, authorPub := "",
       timestamp := 7, replyTo := none } : PostPayload).text ≠ "" :=
  vgt_emits_only_nonempty_text
    (fun p => if p = ["s6"] then some (JVal.jobj none
      [("text", Atom.astr "hello"), ("timestamp", Atom.anum 7)]) else none)
    50 [(JVal.jstr "s6", "h6")]
    { id := "h6", text := "hello", media := none, authorPub := "",
      timestamp := 7, replyTo := none } (by decide)

/-- C3: deletePost resolves the post soul by trying, in order, the
global content-address table, the timeline shards of the last seven
days, the caller's own author index entry, and a best-effort direct
read as last resort; it fails with the not-found error exactly when
every strategy misses. -/
theorem deletePost_resolution_order (st : Store) (app u pid : String)
    (today : Nat) (se pe re : List (String × JVal)) :
    ((deletePost st app true (some u) pid today se pe re).1
        = ⟨false, some "Post not found. Please try again or refresh the page."⟩
      ↔ resolveSoul st app u pid today = none)
    ∧ (resolveSoul st app u pid today = none
      ↔ (method1 st pid = none ∧ method2 st app pid today = none
          ∧ method3 st u pid = none ∧ method4 st app pid = none))
    ∧ (∀ s, method1 st pid = some s →
        resolveSoul st app u pid today = some s)
    ∧ (method1 st pid = none → ∀ s, method2 st app pid today = some s →
        resolveSoul st app u pid today = some s)
    ∧ (method1 st pid = none → method2 st app pid today = none →
        ∀ s, method3 st u pid = some s →
        resolveSoul st app u pid today = some s)
    ∧ (method1 st pid = none → method2 st app pid today = none →
        method3 st u pid = none →
        resolveSoul st app u pid today = method4 st app pid) := by
  refine ⟨?_, ?_, ?_, ?_, ?_, ?_⟩
  · rcases hr : resolveSoul st app u pid today with _ | s
    · simp [deletePost, hr]
    · simp only [deletePost, hr]
      rcases hd : postDataOf st s with _ | fs
      · simp
      · by_cases ha : authorOf fs = some u <;> simp [ha]
  · unfold resolveSoul
    rcases h1 : method1 st pid with _ | s1 <;>
      rcases h2 : method2 st app pid today with _ | s2 <;>
        rcases h3 : method3 st u pid with _ | s3 <;> simp
  · intro s h1; simp [resolveSoul, h1]
  · intro h1 s h2; simp [resolveSoul, h1, h2]
  · intro h1 h2 s h3; simp [resolveSoul, h1, h2, h3]
  · intro h1 h2 h3; simp [resolveSoul, h1, h2, h3]

/-- C3 witness: on an empty store every strategy misses and deletePost
reports not found. -/
theorem deletePost_resolution_order_witness :
    (deletePost (fun _ => none) "app" true (some "u") "p" 0 [] [] []).1
      = ⟨false, some "Post not found. Please try again or refresh the page."⟩ :=
  (deletePost_resolution_order (fun _ => none) "app" "u" "p" 0 [] [] []).1.mpr
    (by decide)

/-- C4: when the resolved content's author differs from the caller's
identity, deletePost fails with the ownership error and issues no
tombstone at all — no index is touched before the ownership check
passes. -/
theorem deletePost_forbidden (st : Store) (app u pid soul : String)
    (today : Nat) (se pe re : List (String × JVal)) (pos : Option String)
    (fs : List (String × Atom)) (a : String)
    (hres : resolveSoul st app u pid today = some soul)
    (hdata : st [soul] = some (JVal.jobj pos fs))
    (hauth : authorOf fs = some a) (hne : a ≠ u) :
    deletePost st app true (some u) pid today se pe re
      = (⟨false, some "You can only delete your own posts"⟩, []) := by
  have hpd : postDataOf st soul = some fs := by simp [postDataOf, hdata]
  have hx : authorOf fs ≠ some u := by
    rw [hauth]
    exact fun h => hne (Option.some.inj h)
  simp [deletePost, hres, hpd, hx]

/-- C4 witness: a caller who does not own the resolved post is
rejected with no writes. -/
theorem deletePost_forbidden_witness :
    deletePost (fun p => if p = ["#posts", "p"] then some (JVal.jstr "s")
        else if p = ["s"] then some (JVal.jobj none
          [("authorPub", Atom.astr "bob"), ("timestamp", Atom.anum 1)])
        else none) "app" true (some "alice") "p" 0 [] [] []
      = (⟨false, some "You can only delete your own posts"⟩, []) :=
  deletePost_forbidden _ "app" "alice" "p" "s" 0 [] [] [] none
    [("authorPub", Atom.astr "bob"), ("timestamp", Atom.anum 1)] "bob"
    (by decide) (by decide) (by decide) (by decide)

theorem timelineClear_len (app pid : String) (d : Nat) :
    ∀ p ∈ timelineClear app pid d, p.length = 4 := by
  intro p hp
  obtain ⟨i, _, rfl⟩ := List.mem_map.mp hp
  rfl

theorem signedClear_len (u postSoul pid : String)
    (es : List (String × JVal)) :
    ∀ p ∈ signedClear u postSoul pid es, p.length = 3 := by
  intro p hp
  obtain ⟨kv, _, hmem⟩ := List.mem_flatMap.mp hp
  rcases kv with ⟨k, v⟩
  cases v with
  | jstr s => cases hmem
  | jref r => cases hmem
  | jobj os fs =>
    dsimp only at hmem
    split at hmem
    · rcases List.mem_singleton.mp hmem with rfl
      rfl
    · cases hmem

theorem hashtagClear_len (app pid text : String) :
    ∀ p ∈ hashtagClear app pid text, p.length = 5 := by
  intro p hp
  unfold hashtagClear at hp
  split at hp
  · cases hp
  · obtain ⟨t, _, hmem⟩ := List.mem_flatMap.mp hp
    simp only [List.mem_cons, List.not_mem_nil, or_false] at hmem
    rcases hmem with rfl | rfl <;> rfl

theorem parentClear_len (app pid postSoul parent : String)
    (es : List (String × JVal)) :
    ∀ p ∈ parentClear app pid postSoul parent es, 4 ≤ p.length := by
  intro p hp
  unfold parentClear at hp
  rcases List.mem_append.mp hp with h | h
  · rcases List.mem_append.mp h with h | h
    · rcases List.mem_singleton.mp h with rfl
      exact (by decide : (4 : Nat) ≤ 5)
    · obtain ⟨kv, _, hmem⟩ := List.mem_flatMap.mp h
      split at hmem
      · rcases List.mem_singleton.mp hmem with rfl
        exact (by decide : (4 : Nat) ≤ 5)
      · split at hmem
        · split at hmem
          · rcases List.mem_singleton.mp hmem with rfl
            exact (by decide : (4 : Nat) ≤ 5)
          · cases hmem
        · cases hmem
  · rcases List.mem_singleton.mp h with rfl
    exact (by decide : (4 : Nat) ≤ 4)

theorem cascadeResolve_len (st : Store) (app k : String) (v : JVal) :
    ∀ p ∈ cascadeResolve st app k v, p.length = 4 := by
  intro p hp
  unfold cascadeResolve at hp
  split at hp
  · cases hp
  · split at hp
    · split at hp
      · cases hp
      · split at hp
        · split at hp
          · cases hp
          · rcases List.mem_append.mp hp with h | h
            · rcases List.mem_append.mp h with h | h
              · rcases List.mem_singleton.mp h with rfl
                rfl
              · split at h
                · exact timelineClear_len _ _ _ p h
                · cases h
            · rcases List.mem_singleton.mp h with rfl
              rfl
        · cases hp
    · cases hp

theorem cascadeClear_len (st : Store) (app pid : String)
    (es : List (String × JVal)) :
    ∀ p ∈ cascadeClear st app pid es, 4 ≤ p.length := by
  intro p hp
  obtain ⟨kv, _, hmem⟩ := List.mem_flatMap.mp hp
  rcases List.mem_append.mp hmem with h | h
  · have := cascadeResolve_len st app kv.1 kv.2 p h
    omega
  · rcases List.mem_singleton.mp h with rfl
    exact (by decide : (4 : Nat) ≤ 5)

theorem deleteClears_three_le (st : Store) (app u pid soul : String)
    (fs : List (String × Atom)) (se pe re : List (String × JVal)) :
    ∀ p ∈ deleteClears st app u pid soul fs se pe re, 3 ≤ p.length := by
  intro p hp
  unfold deleteClears at hp
  simp only [List.mem_append] at hp
  rcases hp with (((((h | h) | h) | h) | h) | h) | h
  · rcases List.mem_singleton.mp h with rfl
    exact (by decide : (3 : Nat) ≤ 4)
  · have := signedClear_len u soul pid se p h
    omega
  · split at h
    · have := timelineClear_len app pid _ p h
      omega
    · cases h
  · have := hashtagClear_len app pid _ p h
    omega
  · simp only [List.mem_cons, List.not_mem_nil, or_false] at h
    rcases h with rfl | rfl <;> exact (by decide : (3 : Nat) ≤ 4)
  · split at h
    · have := parentClear_len app pid soul _ pe p h
      omega
    · cases h
  · have := cascadeClear_len st app pid re p h
    omega

/-- C1: a successful authored deletePost tombstones the post's author
index entry, its timeline shard entries (including the publication
day), every hashtag back-link obtained by re-scanning its text, the
author↔post link fields, and, for every delivered reply that resolves
through the content-address table, the reply's own author-index entry,
its timeline entries, its replyTo back-link and its entry in the
deleted post's replies — while never writing to the `#posts`
content-address table, so every `#posts/{hash}` entry (the content of
the post and of all its replies) still resolves afterwards. -/
theorem deletePost_cascade (st : Store) (app u pid soul : String)
    (pos : Option String) (fs : List (String × Atom)) (ts : Nat)
    (today : Nat) (se pe re : List (String × JVal))
    (hsoul : st ["#posts", pid] = some (JVal.jstr soul)) (hs : soul ≠ "")
    (hdata : st [soul] = some (JVal.jobj pos fs))
    (hauth : authorOf fs = some u)
    (hts : truthyNat (fieldOf fs "timestamp") = some ts) :
    deletePost st app true (some u) pid today se pe re
      = (⟨true, none⟩, deleteClears st app u pid soul fs se pe re)
    ∧ applyClears st (deleteClears st app u pid soul fs se pe re)
        ["users", u, "posts", pid] = none
    ∧ applyClears st (deleteClears st app u pid soul fs se pe re)
        [app, "timeline", dayStr (dayOf ts), pid] = none
    ∧ (∀ c ∈ slugsOf ((truthyStr (fieldOf fs "text")).getD ""),
        applyClears st (deleteClears st app u pid soul fs se pe re)
          [app, "hashtags", c, "posts", pid] = none
        ∧ applyClears st (deleteClears st app u pid soul fs se pe re)
          [app, "posts", pid, "tags", c] = none)
    ∧ applyClears st (deleteClears st app u pid soul fs se pe re)
        [app, "posts", pid, "author"] = none
    ∧ applyClears st (deleteClears st app u pid soul fs se pe re)
        ["users", u, "posts_bidirectional", pid] = none
    ∧ (∀ k v h2 rsoul rpos rfs a rt, (k, v) ∈ dedupKeys re [] →
        replyHashOf k v = some h2 →
        st ["#posts", h2] = some (JVal.jstr rsoul) → rsoul ≠ "" →
        st [rsoul] = some (JVal.jobj rpos rfs) →
        authorOf rfs = some a →
        truthyNat (fieldOf rfs "timestamp") = some rt →
        applyClears st (deleteClears st app u pid soul fs se pe re)
          ["users", a, "posts", h2] = none
        ∧ applyClears st (deleteClears st app u pid soul fs se pe re)
          [app, "timeline", dayStr (dayOf rt), h2] = none
        ∧ applyClears st (deleteClears st app u pid soul fs se pe re)
          [app, "posts", h2, "replyTo"] = none
        ∧ applyClears st (deleteClears st app u pid soul fs se pe re)
          [app, "posts", pid, "replies", k] = none)
    ∧ (∀ h2, (["#posts", h2] : Path)
        ∉ deleteClears st app u pid soul fs se pe re)
    ∧ (∀ h2, applyClears st (deleteClears st app u pid soul fs se pe re)
        ["#posts", h2] = st ["#posts", h2]) := by
  have hm1 : method1 st pid = some soul := by simp [method1, hsoul, hs]
  have hr : resolveSoul st app u pid today = some soul := by
    simp [resolveSoul, hm1]
  have hpd : postDataOf st soul = some fs := by simp [postDataOf, hdata]
  have hnot : ∀ h2, (["#posts", h2] : Path)
      ∉ deleteClears st app u pid soul fs se pe re := by
    intro h2 hmem
    have hlen := deleteClears_three_le st app u pid soul fs se pe re _ hmem
    simp at hlen
  refine ⟨?_, ?_, ?_, ?_, ?_, ?_, ?_, hnot, ?_⟩
  · simp [deletePost, hr, hpd, hauth]
  · refine applyClears_of_mem _ _ _ ?_
    simp only [deleteClears, List.mem_append]
    exact Or.inl (Or.inl (Or.inl (Or.inl (Or.inl (Or.inl (by simp))))))
  · refine applyClears_of_mem _ _ _ ?_
    simp only [deleteClears, List.mem_append]
    refine Or.inl (Or.inl (Or.inl (Or.inl (Or.inr ?_))))
    rw [hts]
    refine List.mem_map.mpr ⟨0, List.mem_range.mpr (by omega), ?_⟩
    simp
  · intro c hc
    obtain ⟨t, ht, rfl⟩ := List.mem_map.mp hc
    have htext : ((truthyStr (fieldOf fs "text")).getD "") ≠ "" := by
      intro h0
      rw [h0] at ht
      have hempty : matchHashtags "" = [] := rfl
      rw [hempty] at ht
      cases ht
    constructor
    · refine applyClears_of_mem _ _ _ ?_
      simp only [deleteClears, List.mem_append]
      refine Or.inl (Or.inl (Or.inl (Or.inr ?_)))
      unfold hashtagClear
      rw [if_neg htext]
      exact List.mem_flatMap.mpr ⟨t, ht, by simp⟩
    · refine applyClears_of_mem _ _ _ ?_
      simp only [deleteClears, List.mem_append]
      refine Or.inl (Or.inl (Or.inl (Or.inr ?_)))
      unfold hashtagClear
      rw [if_neg htext]
      exact List.mem_flatMap.mpr ⟨t, ht, by simp⟩
  · refine applyClears_of_mem _ _ _ ?_
    simp only [deleteClears, List.mem_append]
    exact Or.inl (Or.inl (Or.inr (by simp)))
  · refine applyClears_of_mem _ _ _ ?_
    simp only [deleteClears, List.mem_append]
    exact Or.inl (Or.inl (Or.inr (by simp)))
  · intro k v h2 rsoul rpos rfs a rt hkv hrh hrs hrsne hrd hra hrt
    have hcr : cascadeResolve st app k v
        = [["users", a, "posts", h2]] ++ timelineClear app h2 (dayOf rt)
          ++ [[app, "posts", h2, "replyTo"]] := by
      simp only [cascadeResolve, hrh, hrs, hrd, hra, hrt]
      rw [if_neg hrsne]
    have hone : ∀ q, q ∈ cascadeResolve st app k v
          ∨ q = [app, "posts", pid, "replies", k] →
        q ∈ deleteClears st app u pid soul fs se pe re := by
      intro q hq
      simp only [deleteClears, List.mem_append]
      refine Or.inr ?_
      refine List.mem_flatMap.mpr ⟨(k, v), hkv, ?_⟩
      show q ∈ cascadeResolve st app k v ++ [[app, "posts", pid, "replies", k]]
      rcases hq with hq | rfl
      · exact List.mem_append_left _ hq
      · exact List.mem_append_right _ (by simp)
    refine ⟨?_, ?_, ?_, ?_⟩
    · refine applyClears_of_mem _ _ _ (hone _ (Or.inl ?_))
      rw [hcr]
      exact List.mem_append_left _ (List.mem_append_left _ (by simp))
    · refine applyClears_of_mem _ _ _ (hone _ (Or.inl ?_))
      rw [hcr]
      refine List.mem_append_left _ (List.mem_append_right _ ?_)
      refine List.mem_map.mpr ⟨0, List.mem_range.mpr (by omega), ?_⟩
      simp
    · refine applyClears_of_mem _ _ _ (hone _ (Or.inl ?_))
      rw [hcr]
      exact List.mem_append_right _ (by simp)
    · exact applyClears_of_mem _ _ _ (hone _ (Or.inr rfl))
  · intro h2
    exact applyClears_of_not_mem _ _ _ (hnot h2)

/-- C1 witness: on the concrete store the cascade tombstones the post's
author-index, timeline, hashtag and reply entries and the reply's own
author-index entry, while both content-address entries still
resolve. -/
theorem deletePost_cascade_witness :
    (deletePost cascadeStore "a" true (some "u") "p" 9 [] []
        [cascadeReply]).1 = ⟨true, none⟩
    ∧ applyClears cascadeStore
        (deletePost cascadeStore "a" true (some "u") "p" 9 [] []
          [cascadeReply]).2 ["users", "u", "posts", "p"] = none
    ∧ applyClears cascadeStore
        (deletePost cascadeStore "a" true (some "u") "p" 9 [] []
          [cascadeReply]).2 ["a", "timeline", "0", "p"] = none
    ∧ applyClears cascadeStore
        (deletePost cascadeStore "a" true (some "u") "p" 9 [] []
          [cascadeReply]).2 ["a", "hashtags", "t", "posts", "p"] = none
    ∧ applyClears cascadeStore
        (deletePost cascadeStore "a" true (some "u") "p" 9 [] []
          [cascadeReply]).2 ["users", "v", "posts", "R"] = none
    ∧ applyClears cascadeStore
        (deletePost cascadeStore "a" true (some "u") "p" 9 [] []
          [cascadeReply]).2 ["a", "posts", "p", "replies", "r"] = none
    ∧ applyClears cascadeStore
        (deletePost cascadeStore "a" true (some "u") "p" 9 [] []
          [cascadeReply]).2 ["#posts", "p"] = some (JVal.jstr "s")
    ∧ applyClears cascadeStore
        (deletePost cascadeStore "a" true (some "u") "p" 9 [] []
          [cascadeReply]).2 ["#posts", "R"] = some (JVal.jstr "rs") := by
  have h := deletePost_cascade cascadeStore "a" "u" "p" "s" none
    cascadeFields 1 9 [] [] [cascadeReply]
    (by decide) (by decide) (by decide) (by decide) (by decide)
  obtain ⟨h1, h2, h3, h4, h5, h6, h7, h8, h9⟩ := h
  have hc := h7 "r"
    (JVal.jobj none [("hash", Atom.astr "R"), ("timestamp", Atom.anum 2)])
    "R" "rs" none [("authorPub", Atom.astr "v"), ("timestamp", Atom.anum 2)]
    "v" 2 (by decide) (by decide) (by decide) (by decide) (by decide)
    (by decide) (by decide)
  have hh := h4 "t" (by decide)
  exact ⟨by rw [h1], h2, h3, hh.1, hc.1, hc.2.2.2,
    (h9 "p").trans (by decide), (h9 "R").trans (by decide)⟩

end Mistodon
